import Mathlib

/-!
Shallow embedding of the rule-table construction and resolution engine in
`src/translator.cpp`.

Modelling conventions:
* C++ `std::string` is `List Char` (`Str`), with `front`/`back`/`pop_back`
  rendered as `List.head?`/`List.getLast?`/`List.dropLast`.
* `std::map` (used for `TypeUsage::attributes` / `TypeUsage::lists`, whose
  only operations here are `emplace` and key lookup) is an association list
  with `emplace` inserting only when the key is absent, matching
  `std::map::emplace`'s insert-if-absent semantics.
* YAML nodes are an inductive tree; fallible parsing (`YamlException`,
  `asMap`/`asSequence`/`as<T>` conversions of the yaml wrapper) is
  `Except String`.
* `std::regex` (ECMAScript) is external-library behaviour: the resolvers
  take the text matcher / substituter as a function parameter, and
  `rxSearchImpl` is an executable matcher covering the regex constructs the
  verified configuration patterns actually use (literal characters, the dot
  wildcard, the Kleene star on one atom, the empty regex), with the
  substring-search semantics of `std::regex_search`.
* `parseEntries` is recursive through the `+on`/`+set` grouping directive;
  the recursion is bounded by an explicit `fuel` parameter (a pure
  embedding artifact: any terminating run of the C++ corresponds to every
  sufficiently large fuel value).
-/

namespace Gtad

/-- C++ `std::string`, modelled as its list of characters. -/
abbrev Str := List Char

/-- A YAML configuration node. -/
inductive YamlNode where
  | null
  | scalar (s : Str)
  | seq (elems : List YamlNode)
  | map (entries : List (Str × YamlNode))

/-- A YAML mapping, in document order, with keys read as strings. -/
abbrev YamlMap := List (Str × YamlNode)

/-- Target-language type reference (`TypeUsage`): the rendered base name,
scalar attributes, and ordered-list attributes, both keyed by name. -/
structure TypeUsage where
  baseName : Str
  attributes : List (Str × Str)
  lists : List (Str × List Str)
deriving DecidableEq

/-- First-match key lookup in an association list (models `std::map` lookup
and YAML map subscripting). -/
def lookupStr (k : Str) : List (Str × α) → Option α
  | [] => none
  | (k', v) :: rest => if k' = k then some v else lookupStr k rest

/-- `std::map::emplace`: insert the pair only when the key is absent. -/
def emplace (m : List (Str × α)) (k : Str) (v : α) : List (Str × α) :=
  if (lookupStr k m).isSome then m else m ++ [(k, v)]

/-- The reserved attribute key `"type"`. -/
def typeKey : Str := "type".toList

/-- The grouping-directive key `"+on"`. -/
def onKey : Str := "+on".toList

/-- The grouping-directive key `"+set"`. -/
def setKey : Str := "+set".toList

/-- `asSequence` conversion: fails unless the node is a sequence. -/
def asSeqE : YamlNode → Except String (List YamlNode)
  | .seq xs => .ok xs
  | _ => .error "Sequence expected"

/-- `asMap` conversion: fails unless the node is a map. -/
def asMapE : YamlNode → Except String YamlMap
  | .map es => .ok es
  | _ => .error "Map expected"

/-- `YamlSequence::asStrings`: every element must be a scalar. -/
def asStringsE : List YamlNode → Except String (List Str)
  | [] => .ok []
  | .scalar s :: rest =>
    match asStringsE rest with
    | .error e => .error e
    | .ok ss => .ok (s :: ss)
  | _ :: _ => .error "Scalar expected"

/-- `yamlMap["type"].as<string>("")`: the string value of a scalar node,
defaulting to the empty string when the node is absent or not a scalar. -/
def yamlAsString : Option YamlNode → Str
  | some (.scalar s) => s
  | _ => []

/-- `addTypeAttributes` of `src/translator.cpp`: apply each attribute of the
map to the type usage, skipping the reserved key `type`; null sets an empty
scalar attribute, a scalar sets its string value, a sequence sets the named
list, anything else is a fatal configuration error. -/
def addTypeAttributes (tu : TypeUsage) : YamlMap → Except String TypeUsage
  | [] => .ok tu
  | (attrName, node) :: rest =>
    if attrName = typeKey then addTypeAttributes tu rest
    else
      match node with
      | .null => addTypeAttributes { tu with attributes := emplace tu.attributes attrName [] } rest
      | .scalar s => addTypeAttributes { tu with attributes := emplace tu.attributes attrName s } rest
      | .seq xs =>
        match asStringsE xs with
        | .error e => .error e
        | .ok ss => addTypeAttributes { tu with lists := emplace tu.lists attrName ss } rest
      | .map _ => .error "Malformed attribute"

/-- `parseTargetType(yamlTypeNode)`: null gives the default usage, a scalar
gives a usage with that base name, a map takes its base name from the value
of the `type` key (defaulting to empty) and then applies the remaining keys
as attributes; any other node shape is a configuration error. -/
def parseTargetType : YamlNode → Except String TypeUsage
  | .null => .ok ⟨[], [], []⟩
  | .scalar s => .ok ⟨s, [], []⟩
  | .map es => addTypeAttributes ⟨yamlAsString (lookupStr typeKey es), [], []⟩ es
  | .seq _ => .error "Map expected"

/-- `parseTargetType(yamlTypeNode, commonAttributesYaml)`: parse the entry,
then merge the shared attributes second (so entry-specific values win). -/
def parseTargetType2 (node : YamlNode) (common : YamlMap) : Except String TypeUsage :=
  match parseTargetType node with
  | .error e => .error e
  | .ok tu => addTypeAttributes tu common

/-- `parseEntries`: each entry is a single-key map handed to the inserter,
or an `{+on, +set}` grouping directive recursively parsed with the `+set`
map as shared attributes; zero keys, or two keys other than `+on`/`+set`,
or three or more keys, are fatal configuration errors.  `fuel` bounds the
number of processing steps (an embedding artifact, see the module header). -/
def parseEntries (inserter : Str → YamlNode → YamlMap → Except String α) :
    Nat → YamlMap → List YamlNode → Except String (List α)
  | _, _, [] => .ok []
  | 0, _, _ :: _ => .error "Recursion limit reached"
  | fuel + 1, common, node :: rest =>
    match node with
    | .map [] => .error "Empty type entry"
    | .map [(k, v)] =>
      match inserter k v common with
      | .error e => .error e
      | .ok a =>
        match parseEntries inserter fuel common rest with
        | .error e => .error e
        | .ok as => .ok (a :: as)
    | .map es =>
      match lookupStr onKey es, lookupStr setKey es with
      | some onNode, some setNode =>
        if es.length = 2 then
          match asSeqE onNode with
          | .error e => .error e
          | .ok xs =>
            match asMapE setNode with
            | .error e => .error e
            | .ok setMap =>
              match parseEntries inserter fuel setMap xs with
              | .error e => .error e
              | .ok sub =>
                match parseEntries inserter fuel common rest with
                | .error e => .error e
                | .ok as => .ok (sub ++ as)
        else .error "Too many entries in the map, check indentation"
      | _, _ => .error "Too many entries in the map, check indentation"
    | _ => .error "Map expected"

/-- Format-name normalization of `parseTypeEntry`: an empty format becomes
the all-formats sentinel `/`; a format fully wrapped in `/…/` (longer than
one character) has only its trailing slash stripped. -/
def normalizeFormat (formatName : Str) : Str :=
  if formatName = [] then ['/']
  else if 1 < formatName.length ∧ formatName.head? = some '/' ∧ formatName.getLast? = some '/'
    then formatName.dropLast
    else formatName

/-- `parseTypeEntry`: a scalar or map target produces one rule keyed by the
empty format; a sequence produces one rule per sub-entry with format-name
normalization; anything else is a configuration error. -/
def parseTypeEntry (fuel : Nat) (targetTypeYaml : YamlNode) (common : YamlMap) :
    Except String (List (Str × TypeUsage)) :=
  match targetTypeYaml with
  | .scalar s =>
    match parseTargetType2 (.scalar s) common with
    | .error e => .error e
    | .ok tu => .ok [([], tu)]
  | .map es =>
    match parseTargetType2 (.map es) common with
    | .error e => .error e
    | .ok tu => .ok [([], tu)]
  | .seq xs =>
    parseEntries
      (fun formatName typeYaml commonAttrsYaml =>
        match parseTargetType2 typeYaml commonAttrsYaml with
        | .error e => .error e
        | .ok tu => .ok (normalizeFormat formatName, tu))
      fuel common xs
  | .null => .error "Malformed type entry"

/-- `loadStringMap`: an empty pattern is skipped; a pattern longer than one
character ending in `/` but not beginning with `/` is skipped as an invalid
regex; otherwise a pattern beginning and ending with `/` loses its trailing
slash, and the pair is stored. -/
def loadStringMap : List (Str × Str) → List (Str × Str)
  | [] => []
  | (pattn, repl) :: rest =>
    if pattn = [] then loadStringMap rest
    else if 1 < pattn.length ∧ ¬pattn.head? = some '/' ∧ pattn.getLast? = some '/' then
      loadStringMap rest
    else if pattn.head? = some '/' ∧ pattn.getLast? = some '/' then
      (pattn.dropLast, repl) :: loadStringMap rest
    else
      (pattn, repl) :: loadStringMap rest

/-- Abstract syntax for the modelled ECMAScript regex subset: the empty
regex, a literal character, the dot wildcard, and the Kleene star over one
of those atoms, each followed by the rest of the pattern. -/
inductive Rx where
  | eps
  | char (c : Char) (k : Rx)
  | any (k : Rx)
  | starAny (k : Rx)
  | starChar (c : Char) (k : Rx)

/-- Interpret a regex pattern string over the modelled subset (a character
followed by `*` is a starred atom; `.` is the wildcard; everything else is
a literal character). -/
def rxParse : List Char → Rx
  | [] => .eps
  | '.' :: '*' :: rest => .starAny (rxParse rest)
  | '.' :: rest => .any (rxParse rest)
  | c :: '*' :: rest => .starChar c (rxParse rest)
  | c :: rest => .char c (rxParse rest)

/-- Whether the regex matches a prefix of `text`: a starred atom consumes
some admissible prefix (any prefix for `.*`, a constant run for `c*`) and
the continuation matches the rest. -/
def rxm : Rx → List Char → Bool
  | .eps, _ => true
  | .char c k, text =>
    match text with
    | [] => false
    | t :: ts => c == t && rxm k ts
  | .any k, text =>
    match text with
    | [] => false
    | _ :: ts => rxm k ts
  | .starAny k, text =>
    (List.range (text.length + 1)).any fun n => rxm k (text.drop n)
  | .starChar c k, text =>
    (List.range (text.length + 1)).any fun n =>
      (text.take n).all (fun t => c == t) && rxm k (text.drop n)

/-- `std::regex_search`: the pattern matches somewhere in the text
(substring search, no anchoring). -/
def rxSearchImpl (pat text : Str) : Bool :=
  (List.range (text.length + 1)).any fun n => rxm (rxParse pat) (text.drop n)

/-- The inner loop of `Translator::mapType`: scan the format rules of one
schema type in order; a rule matches when its pattern equals the queried
format exactly, or begins with the regex marker `/` and its marker-stripped
pattern regex-matches the format. -/
def scanFormats (rx : Str → Str → Bool) (swaggerFormat : Str) :
    List (Str × TypeUsage) → Option TypeUsage
  | [] => none
  | (swFormat, tu) :: rest =>
    if swFormat = swaggerFormat ∨
        (swFormat.head? = some '/' ∧ rx (swFormat.drop 1) swaggerFormat = true)
      then some tu
      else scanFormats rx swaggerFormat rest

/-- The outer loop of `Translator::mapType`: scan the type rule table in
order; for every entry whose key equals the queried schema type, scan its
format rules; the first format match anywhere stops the whole search. -/
def scanTypes (rx : Str → Str → Bool) :
    List (Str × List (Str × TypeUsage)) → Str → Str → Option TypeUsage
  | [], _, _ => none
  | (name, formats) :: rest, swaggerType, swaggerFormat =>
    if name = swaggerType then
      match scanFormats rx swaggerFormat formats with
      | some tu => some tu
      | none => scanTypes rx rest swaggerType swaggerFormat
    else scanTypes rx rest swaggerType swaggerFormat

/-- `Translator::mapType`: look the pair up in the type rule table (default
usage when nothing matches), then unconditionally set the base name through
the fallback chain `baseName`, `swaggerFormat`, `swaggerType`. -/
def mapType (rx : Str → Str → Bool) (typesMap : List (Str × List (Str × TypeUsage)))
    (swaggerType swaggerFormat baseName : Str) : TypeUsage :=
  let tu := (scanTypes rx typesMap swaggerType swaggerFormat).getD ⟨[], [], []⟩
  { tu with
      baseName :=
        if baseName = [] then if swaggerFormat = [] then swaggerType else swaggerFormat
        else baseName }

/-- The loop of `Translator::mapIdentifier`: a rule whose pattern begins
with `/` immediately returns the global regex substitution over the scoped
name; otherwise a pattern equal to the base name or the scoped name returns
the replacement; no match falls back to the base name. -/
def identScan (rxReplace : Str → Str → Str → Str) (baseName scopedName : Str) :
    List (Str × Str) → Str
  | [] => baseName
  | (pattn, repl) :: rest =>
    if pattn.head? = some '/' then rxReplace scopedName (pattn.drop 1) repl
    else if pattn = baseName ∨ pattn = scopedName then repl
    else identScan rxReplace baseName scopedName rest

/-- `Translator::mapIdentifier`: form `scope + "/" + baseName` and scan the
identifier rule table. -/
def mapIdentifier (rxReplace : Str → Str → Str → Str) (identifiers : List (Str × Str))
    (baseName scope : Str) : Str :=
  identScan rxReplace baseName (scope ++ '/' :: baseName) identifiers

/-- Whether one identifier rule pattern matches the query (regex dispatch,
or literal equality with the base or scoped name). -/
def identMatches (baseName scopedName p : Str) : Prop :=
  p.head? = some '/' ∨ p = baseName ∨ p = scopedName

instance (baseName scopedName p : Str) : Decidable (identMatches baseName scopedName p) := by
  unfold identMatches
  infer_instance

/-- The sequence-form configuration of the round-trip property:
`[{"": {type: "int32"}}, {"int64": {type: "int64"}}]`. -/
def c2Config : YamlNode :=
  .seq
    [ .map [([], .map [(typeKey, .scalar "int32".toList)])],
      .map [("int64".toList, .map [(typeKey, .scalar "int64".toList)])] ]

/-- The type rule table built from `c2Config`. -/
def c2Table : List (Str × TypeUsage) :=
  [(['/'], ⟨"int32".toList, [], []⟩), ("int64".toList, ⟨"int64".toList, [], []⟩)]

theorem lookupStr_append_some (k : Str) (l₂ : List (Str × α)) (v : α) :
    ∀ l₁ : List (Str × α), lookupStr k l₁ = some v → lookupStr k (l₁ ++ l₂) = some v := by
  intro l₁
  induction l₁ with
  | nil => intro h; simp [lookupStr] at h
  | cons p rest ih =>
    intro h
    obtain ⟨k', v'⟩ := p
    rw [List.cons_append]
    by_cases hk : k' = k
    · simp only [lookupStr, if_pos hk] at h ⊢
      exact h
    · simp only [lookupStr, if_neg hk] at h ⊢
      exact ih h

theorem lookupStr_append_none (k : Str) (l₂ : List (Str × α)) :
    ∀ l₁ : List (Str × α), lookupStr k l₁ = none → lookupStr k (l₁ ++ l₂) = lookupStr k l₂ := by
  intro l₁
  induction l₁ with
  | nil => intro _; simp
  | cons p rest ih =>
    intro h
    obtain ⟨k', v'⟩ := p
    by_cases hk : k' = k
    · simp [lookupStr, hk] at h
    · simp only [lookupStr, if_neg hk, List.cons_append] at h ⊢
      exact ih h

theorem emplace_preserves_some (k k' : Str) (v' : α) (m : List (Str × α)) (v : α)
    (h : lookupStr k m = some v) : lookupStr k (emplace m k' v') = some v := by
  unfold emplace
  split
  · exact h
  · exact lookupStr_append_some k [(k', v')] v m h

theorem emplace_preserves_none (k k' : Str) (v' : α) (m : List (Str × α)) (hne : ¬k = k')
    (h : lookupStr k m = none) : lookupStr k (emplace m k' v') = none := by
  unfold emplace
  split
  · exact h
  · rw [lookupStr_append_none k [(k', v')] m h]
    have hk : ¬k' = k := fun hc => hne hc.symm
    simp [lookupStr, hk]

theorem emplace_self_isSome (k : Str) (v : α) (m : List (Str × α)) :
    (lookupStr k (emplace m k v)).isSome = true := by
  unfold emplace
  split
  · assumption
  · rename_i hnot
    have h : lookupStr k m = none := by
      cases hq : lookupStr k m
      · rfl
      · exact absurd (by simp [hq]) hnot
    rw [lookupStr_append_none k [(k, v)] m h]
    simp [lookupStr]

/-- Structural facts about one `addTypeAttributes` pass: the base name is
untouched; attribute and list entries already present survive (first-write
wins, by `emplace`); the reserved key `type` is never created; every
non-reserved scalar-valued key of the map ends up present. -/
theorem addTypeAttributes_props :
    ∀ (m : YamlMap) (tu tu' : TypeUsage),
      addTypeAttributes tu m = Except.ok tu' →
      tu'.baseName = tu.baseName ∧
      (∀ k v, lookupStr k tu.attributes = some v → lookupStr k tu'.attributes = some v) ∧
      (∀ k l, lookupStr k tu.lists = some l → lookupStr k tu'.lists = some l) ∧
      (lookupStr typeKey tu.attributes = none → lookupStr typeKey tu'.attributes = none) ∧
      (lookupStr typeKey tu.lists = none → lookupStr typeKey tu'.lists = none) ∧
      (∀ k v, ¬k = typeKey → (k, YamlNode.scalar v) ∈ m →
        (lookupStr k tu'.attributes).isSome = true) := by
  intro m
  induction m with
  | nil =>
    intro tu tu' h
    simp only [addTypeAttributes, Except.ok.injEq] at h
    subst h
    simp
  | cons p rest ih =>
    intro tu tu' h
    obtain ⟨attrName, node⟩ := p
    by_cases hty : attrName = typeKey
    · simp only [addTypeAttributes, hty, if_true, ite_true] at h
      obtain ⟨h1, h2, h3, h4, h5, h6⟩ := ih tu tu' h
      refine ⟨h1, h2, h3, h4, h5, ?_⟩
      intro k v hk hmem
      rcases List.mem_cons.mp hmem with heq | hmem'
      · obtain ⟨hk1, _⟩ := Prod.mk.injEq .. ▸ heq
        exact absurd (hk1.trans hty) hk
      · exact h6 k v hk hmem'
    · have hty' : ¬typeKey = attrName := fun hc => hty hc.symm
      cases node with
      | null =>
        simp only [addTypeAttributes, hty, if_false, ite_false] at h
        obtain ⟨h1, h2, h3, h4, h5, h6⟩ := ih _ tu' h
        refine ⟨h1, ?_, h3, ?_, h5, ?_⟩
        · intro k v hkv
          exact h2 k v (emplace_preserves_some k attrName [] tu.attributes v hkv)
        · intro hnone
          exact h4 (emplace_preserves_none typeKey attrName [] tu.attributes hty' hnone)
        · intro k v hk hmem
          rcases List.mem_cons.mp hmem with heq | hmem'
          · simp at heq
          · exact h6 k v hk hmem'
      | scalar s =>
        simp only [addTypeAttributes, hty, if_false, ite_false] at h
        obtain ⟨h1, h2, h3, h4, h5, h6⟩ := ih _ tu' h
        refine ⟨h1, ?_, h3, ?_, h5, ?_⟩
        · intro k v hkv
          exact h2 k v (emplace_preserves_some k attrName s tu.attributes v hkv)
        · intro hnone
          exact h4 (emplace_preserves_none typeKey attrName s tu.attributes hty' hnone)
        · intro k v hk hmem
          rcases List.mem_cons.mp hmem with heq | hmem'
          · obtain ⟨hk1, hk2⟩ := Prod.mk.injEq .. ▸ heq
            subst hk1
            obtain ⟨hs⟩ : s = v := by cases hk2; rfl
            have hself := emplace_self_isSome k s tu.attributes
            obtain ⟨w, hw⟩ := Option.isSome_iff_exists.mp hself
            simp [h2 k w hw]
          · exact h6 k v hk hmem'
      | seq xs =>
        simp only [addTypeAttributes, hty, if_false, ite_false] at h
        cases hxs : asStringsE xs with
        | error e => rw [hxs] at h; simp at h
        | ok ss =>
          rw [hxs] at h
          obtain ⟨h1, h2, h3, h4, h5, h6⟩ := ih _ tu' h
          refine ⟨h1, h2, ?_, h4, ?_, ?_⟩
          · intro k l hkl
            exact h3 k l (emplace_preserves_some k attrName ss tu.lists l hkl)
          · intro hnone
            exact h5 (emplace_preserves_none typeKey attrName ss tu.lists hty' hnone)
          · intro k v hk hmem
            rcases List.mem_cons.mp hmem with heq | hmem'
            · simp at heq
            · exact h6 k v hk hmem'
      | map es =>
        simp only [addTypeAttributes, hty, if_false, ite_false] at h
        simp at h

theorem identScan_skip (rxR : Str → Str → Str → Str) (b s : Str) :
    ∀ (pre rest : List (Str × Str)),
      (∀ q ∈ pre, ¬identMatches b s q.1) →
      identScan rxR b s (pre ++ rest) = identScan rxR b s rest := by
  intro pre
  induction pre with
  | nil => intro rest _; rfl
  | cons q pre ih =>
    intro rest h
    obtain ⟨p, r⟩ := q
    have hq : ¬identMatches b s p := h (p, r) (List.mem_cons_self _ _)
    have h1 : ¬p.head? = some '/' := fun hc => hq (Or.inl hc)
    have h2 : ¬(p = b ∨ p = s) := fun hc => hq (Or.inr hc)
    rw [List.cons_append]
    simp only [identScan]
    rw [if_neg h1, if_neg h2]
    exact ih rest fun q hqq => h q (List.mem_cons_of_mem _ hqq)

theorem rxSearchImpl_dotStar (t : Str) : rxSearchImpl ['.', '*'] t = true := by
  simp only [rxSearchImpl, rxParse, rxm, List.any_eq_true, List.mem_range]
  exact ⟨0, Nat.succ_pos _, 0, Nat.succ_pos _, trivial⟩

theorem mapType_of_scan (rx : Str → Str → Bool) (typesMap : List (Str × List (Str × TypeUsage)))
    (swaggerType swaggerFormat baseName : Str) (tu : TypeUsage)
    (h : scanTypes rx typesMap swaggerType swaggerFormat = some tu) :
    mapType rx typesMap swaggerType swaggerFormat baseName =
      { tu with
          baseName :=
            if baseName = [] then
              if swaggerFormat = [] then swaggerType else swaggerFormat
            else baseName } := by
  simp only [mapType, h, Option.getD_some]

theorem loadStringMap_cong (q : Str × Str) :
    ∀ l₁ l₂, loadStringMap l₁ = loadStringMap l₂ →
      loadStringMap (q :: l₁) = loadStringMap (q :: l₂) := by
  intro l₁ l₂ h
  obtain ⟨p, r⟩ := q
  simp only [loadStringMap]
  split_ifs <;> simp [h]

/-- Claim C1: for every call to `mapType`, the returned `TypeUsage`'s base
name equals `baseName` if non-empty, else `swaggerFormat` if non-empty,
else `swaggerType`; and when a rule matched, the result is that rule's
stored `TypeUsage` with its own base name overwritten by this chain. -/
theorem mapType_fallback_chain :
    ∀ (rx : Str → Str → Bool) (typesMap : List (Str × List (Str × TypeUsage)))
      (swaggerType swaggerFormat baseName : Str),
      ((mapType rx typesMap swaggerType swaggerFormat baseName).baseName =
        if baseName = [] then if swaggerFormat = [] then swaggerType else swaggerFormat
        else baseName) ∧
      (∀ tu, scanTypes rx typesMap swaggerType swaggerFormat = some tu →
        mapType rx typesMap swaggerType swaggerFormat baseName =
          { tu with
              baseName :=
                if baseName = [] then
                  if swaggerFormat = [] then swaggerType else swaggerFormat
                else baseName }) := by
  intro rx tm t f b
  refine ⟨rfl, ?_⟩
  intro tu h
  exact mapType_of_scan rx tm t f b tu h

/-- Witness for C1: a matched rule carrying its own base name `own` and an
attribute still has its name overwritten by the fallback chain while the
attribute is kept. -/
theorem mapType_fallback_chain_witness :
    mapType rxSearchImpl
        [("string".toList, [([], ⟨"own".toList, [("k".toList, "v".toList)], []⟩)])]
        "string".toList [] []
      = ⟨"string".toList, [("k".toList, "v".toList)], []⟩ := by
  have h := (mapType_fallback_chain rxSearchImpl
      [("string".toList, [([], ⟨"own".toList, [("k".toList, "v".toList)], []⟩)])]
      "string".toList [] []).2 ⟨"own".toList, [("k".toList, "v".toList)], []⟩ rfl
  exact h.trans (by decide)

/-- Claim C2, counterexample: from the sequence-form config
`[{"": {type: "int32"}}, {"int64": {type: "int64"}}]`, resolving with
`schemaFormat = "int64"` selects the first (universal) entry, not the
second: the all-formats sentinel `/` is matched as the empty regex, which
matches every format, and the scan is first-match-wins. -/
theorem typeTable_roundtrip_counterexample :
    parseTypeEntry 3 c2Config [] = Except.ok c2Table ∧
    scanTypes rxSearchImpl [("integer".toList, c2Table)] "integer".toList "int64".toList
      = some ⟨"int32".toList, [], []⟩ ∧
    ¬(⟨"int32".toList, [], []⟩ : TypeUsage) = ⟨"int64".toList, [], []⟩ :=
  ⟨rfl, rfl, by decide⟩

/-- Claim C2, amended: building the table from the sequence-form config
normalizes the empty format to `/`, and resolving with `schemaFormat = ""`
*and* with `schemaFormat = "int64"` both select the first (universal)
entry, because the universal pattern matches every format and earlier
rules win. -/
theorem typeTable_roundtrip_amended :
    parseTypeEntry 3 c2Config [] = Except.ok c2Table ∧
    scanTypes rxSearchImpl [("integer".toList, c2Table)] "integer".toList []
      = some ⟨"int32".toList, [], []⟩ ∧
    scanTypes rxSearchImpl [("integer".toList, c2Table)] "integer".toList "int64".toList
      = some ⟨"int32".toList, [], []⟩ :=
  ⟨rfl, rfl, rfl⟩

/-- Claim C3: with two format rules for the same schema type whose first
pattern is the always-matching regex `/.*/` (stored as `/.*`) and whose
second is an exact literal equal to the queried format, the scan returns
the first rule's `TypeUsage`, and `mapType` returns it with the fallback
base name — the later exact match is never considered. -/
theorem mapType_first_match_wins :
    ∀ (schemaType fmt : Str) (tu₁ tu₂ : TypeUsage) (baseName : Str),
      scanTypes rxSearchImpl [(schemaType, [("/.*".toList, tu₁), (fmt, tu₂)])]
          schemaType fmt = some tu₁ ∧
      mapType rxSearchImpl [(schemaType, [("/.*".toList, tu₁), (fmt, tu₂)])]
          schemaType fmt baseName =
        { tu₁ with
            baseName :=
              if baseName = [] then if fmt = [] then schemaType else fmt else baseName } := by
  intro t fmt tu₁ tu₂ b
  have hfmt : scanFormats rxSearchImpl fmt [("/.*".toList, tu₁), (fmt, tu₂)] = some tu₁ := by
    simp only [scanFormats]
    rw [if_pos (Or.inr ⟨rfl, rxSearchImpl_dotStar fmt⟩)]
  have hscan : scanTypes rxSearchImpl [(t, [("/.*".toList, tu₁), (fmt, tu₂)])] t fmt
      = some tu₁ := by
    simp only [scanTypes, hfmt, if_true]
  exact ⟨hscan, mapType_of_scan rxSearchImpl _ t fmt b tu₁ hscan⟩

/-- Claim C4: `mapIdentifier` scans the rules in order over
`scopedName = scope ++ "/" ++ baseName`; the first reached rule whose
pattern begins with `/` immediately returns the regex substitution of the
whole scoped name; a reached rule whose pattern equals the base name or
the scoped name returns its replacement text; with no match the base name
is returned unchanged. -/
theorem mapIdentifier_spec :
    ∀ (rxReplace : Str → Str → Str → Str) (rules : List (Str × Str)) (baseName scope : Str),
      (∀ pre ps repl post,
        rules = pre ++ ('/' :: ps, repl) :: post →
        (∀ q ∈ pre, ¬identMatches baseName (scope ++ '/' :: baseName) q.1) →
        mapIdentifier rxReplace rules baseName scope
          = rxReplace (scope ++ '/' :: baseName) ps repl) ∧
      (∀ pre p repl post,
        rules = pre ++ (p, repl) :: post →
        (∀ q ∈ pre, ¬identMatches baseName (scope ++ '/' :: baseName) q.1) →
        ¬p.head? = some '/' →
        (p = baseName ∨ p = scope ++ '/' :: baseName) →
        mapIdentifier rxReplace rules baseName scope = repl) ∧
      ((∀ q ∈ rules, ¬identMatches baseName (scope ++ '/' :: baseName) q.1) →
        mapIdentifier rxReplace rules baseName scope = baseName) := by
  intro rxR rules b sc
  refine ⟨?_, ?_, ?_⟩
  · intro pre ps repl post hr hpre
    show identScan rxR b (sc ++ '/' :: b) rules = _
    rw [hr, identScan_skip rxR b _ pre _ hpre]
    simp only [identScan]
    rw [if_pos (show ('/' :: ps).head? = some '/' from rfl)]
    rfl
  · intro pre p repl post hr hpre hhead hlit
    show identScan rxR b (sc ++ '/' :: b) rules = repl
    rw [hr, identScan_skip rxR b _ pre _ hpre]
    simp only [identScan]
    rw [if_neg hhead, if_pos hlit]
  · intro h
    have h0 := identScan_skip rxR b (sc ++ '/' :: b) rules [] h
    rw [List.append_nil] at h0
    exact h0

/-- Witness for C4: one instantiation of each branch — a regex rule fires
with the substitution result, a literal rule equal to the base name
returns its replacement, and an empty table falls back to the base name. -/
theorem mapIdentifier_spec_witness :
    mapIdentifier (fun _ ps r => ps ++ r) [("/Ab".toList, "X".toList)] "b".toList "s".toList
      = "Ab".toList ++ "X".toList ∧
    mapIdentifier (fun _ ps r => ps ++ r) [("Id".toList, "Identifier".toList)]
      "Id".toList "GetUser".toList = "Identifier".toList ∧
    mapIdentifier (fun _ ps r => ps ++ r) [] "b".toList "s".toList = "b".toList := by
  refine ⟨?_, ?_, ?_⟩
  · exact (mapIdentifier_spec (fun _ ps r => ps ++ r) [("/Ab".toList, "X".toList)]
      "b".toList "s".toList).1 [] "Ab".toList "X".toList [] rfl (by simp)
  · exact (mapIdentifier_spec (fun _ ps r => ps ++ r) [("Id".toList, "Identifier".toList)]
      "Id".toList "GetUser".toList).2.1 [] "Id".toList "Identifier".toList [] rfl (by simp)
      (by decide) (Or.inl rfl)
  · exact (mapIdentifier_spec (fun _ ps r => ps ++ r) [] "b".toList "s".toList).2.2 (by simp)

/-- Claim C5, counterexample: with all three inputs empty the fallback
chain leaves the resolved base name empty, so the base name of a `mapType`
result is not always non-empty. -/
theorem mapType_empty_baseName_counterexample :
    (mapType rxSearchImpl [] [] [] []).baseName = [] := rfl

/-- Claim C5, amended: the base name of every `mapType` result is
non-empty provided at least one of the schema type, the schema format and
the base-name hint is non-empty (the fallback chain returns one of them). -/
theorem mapType_baseName_nonempty :
    ∀ (rx : Str → Str → Bool) (typesMap : List (Str × List (Str × TypeUsage)))
      (swaggerType swaggerFormat baseName : Str),
      ¬swaggerType = [] ∨ ¬swaggerFormat = [] ∨ ¬baseName = [] →
      ¬(mapType rx typesMap swaggerType swaggerFormat baseName).baseName = [] := by
  intro rx tm t f b h
  have e : (mapType rx tm t f b).baseName =
      if b = [] then if f = [] then t else f else b := rfl
  rw [e]
  split_ifs <;> tauto

/-- Witness for C5 (amended): a non-empty schema type with no rules
resolves to a non-empty base name. -/
theorem mapType_baseName_nonempty_witness :
    ¬(mapType rxSearchImpl [] "string".toList [] []).baseName = [] :=
  mapType_baseName_nonempty rxSearchImpl [] "string".toList [] [] (Or.inl (by decide))

/-- Claim C6: attributes and lists set by the entry-specific parse survive
the second, shared-attribute merge unchanged (shared attributes are merged
second and insert only when the name is absent), so entry-specific values
win for both scalar and list attributes. -/
theorem targetType_entry_attributes_win :
    ∀ (node : YamlNode) (common : YamlMap) (tu tu₂ : TypeUsage),
      parseTargetType node = Except.ok tu →
      parseTargetType2 node common = Except.ok tu₂ →
      (∀ k v, lookupStr k tu.attributes = some v → lookupStr k tu₂.attributes = some v) ∧
      (∀ k l, lookupStr k tu.lists = some l → lookupStr k tu₂.lists = some l) := by
  intro node common tu tu₂ h1 h2
  unfold parseTargetType2 at h2
  rw [h1] at h2
  obtain ⟨_, hA, hL, _⟩ := addTypeAttributes_props common tu tu₂ h2
  exact ⟨hA, hL⟩

/-- Witness for C6: entry-specific `a = x` and list `l = [p]` beat the
shared `a = y` and `l = [q]`, while the absent shared `b = z` is added. -/
theorem targetType_entry_attributes_win_witness :
    lookupStr "a".toList (TypeUsage.mk "T".toList
        [("a".toList, "x".toList), ("b".toList, "z".toList)]
        [("l".toList, ["p".toList])]).attributes = some "x".toList ∧
    lookupStr "l".toList (TypeUsage.mk "T".toList
        [("a".toList, "x".toList), ("b".toList, "z".toList)]
        [("l".toList, ["p".toList])]).lists = some ["p".toList] := by
  have h := targetType_entry_attributes_win
      (.map [(typeKey, .scalar "T".toList), ("a".toList, .scalar "x".toList),
             ("l".toList, .seq [.scalar "p".toList])])
      [("a".toList, .scalar "y".toList), ("l".toList, .seq [.scalar "q".toList]),
       ("b".toList, .scalar "z".toList)]
      ⟨"T".toList, [("a".toList, "x".toList)], [("l".toList, ["p".toList])]⟩
      ⟨"T".toList, [("a".toList, "x".toList), ("b".toList, "z".toList)],
       [("l".toList, ["p".toList])]⟩
      rfl rfl
  exact ⟨h.1 _ _ rfl, h.2 _ _ rfl⟩

/-- Claim C7: applying an attribute map never creates an attribute or list
named `type` (the reserved key is skipped), while other keys are applied;
in particular `{"type": "string", "maxLength": "10"}` sets exactly the one
attribute `maxLength`. -/
theorem addTypeAttributes_never_type :
    (∀ (tu tu' : TypeUsage) (m : YamlMap),
        addTypeAttributes tu m = Except.ok tu' →
        (lookupStr typeKey tu.attributes = none → lookupStr typeKey tu'.attributes = none) ∧
        (lookupStr typeKey tu.lists = none → lookupStr typeKey tu'.lists = none) ∧
        (∀ k v, ¬k = typeKey → (k, YamlNode.scalar v) ∈ m →
          (lookupStr k tu'.attributes).isSome = true)) ∧
    addTypeAttributes ⟨[], [], []⟩
        [(typeKey, .scalar "string".toList), ("maxLength".toList, .scalar "10".toList)]
      = Except.ok ⟨[], [("maxLength".toList, "10".toList)], []⟩ := by
  constructor
  · intro tu tu' m h
    obtain ⟨_, _, _, h4, h5, h6⟩ := addTypeAttributes_props m tu tu' h
    exact ⟨h4, h5, h6⟩
  · rfl

/-- Witness for C7: in the result of the example map, `type` is absent and
`maxLength` is present. -/
theorem addTypeAttributes_never_type_witness :
    lookupStr typeKey
        (TypeUsage.mk [] [("maxLength".toList, "10".toList)] []).attributes = none ∧
    (lookupStr "maxLength".toList
        (TypeUsage.mk [] [("maxLength".toList, "10".toList)] []).attributes).isSome = true := by
  have h := addTypeAttributes_never_type.1 ⟨[], [], []⟩
      ⟨[], [("maxLength".toList, "10".toList)], []⟩
      [(typeKey, .scalar "string".toList), ("maxLength".toList, .scalar "10".toList)] rfl
  exact ⟨h.1 rfl, h.2.2 "maxLength".toList "10".toList (by decide) (by simp)⟩

/-- Claim C8: when loading a substitution or identifier rule table, an
empty pattern, and a pattern longer than one character that ends with `/`
but does not begin with `/`, are each skipped while the remaining entries
still load; a `/…/`-wrapped pattern (longer than one character) is stored
with its trailing slash stripped and its leading slash retained. -/
theorem loadStringMap_spec :
    ∀ (pre post : List (Str × Str)) (p v : Str),
      (loadStringMap (pre ++ ([], v) :: post) = loadStringMap (pre ++ post)) ∧
      (1 < p.length → ¬p.head? = some '/' → p.getLast? = some '/' →
        loadStringMap (pre ++ (p, v) :: post) = loadStringMap (pre ++ post)) ∧
      (1 < p.length → p.head? = some '/' → p.getLast? = some '/' →
        loadStringMap ((p, v) :: post) = (p.dropLast, v) :: loadStringMap post ∧
        p.dropLast.head? = some '/') := by
  intro pre post p v
  refine ⟨?_, ?_, ?_⟩
  · induction pre with
    | nil => simp [loadStringMap]
    | cons q pre ih =>
      rw [List.cons_append, List.cons_append]
      exact loadStringMap_cong q _ _ ih
  · intro h1 h2 h3
    induction pre with
    | nil =>
      have hne : ¬p = [] := by intro hp; subst hp; simp at h1
      simp only [List.nil_append, loadStringMap]
      rw [if_neg hne, if_pos ⟨h1, h2, h3⟩]
    | cons q pre ih =>
      rw [List.cons_append, List.cons_append]
      exact loadStringMap_cong q _ _ ih
  · intro h1 h2 h3
    have hne : ¬p = [] := by intro hp; subst hp; simp at h2
    constructor
    · simp only [loadStringMap]
      rw [if_neg hne, if_neg fun hc => hc.2.1 h2, if_pos ⟨h2, h3⟩]
    · obtain ⟨c, rest, rfl⟩ : ∃ c rest, p = c :: rest := by
        cases p with
        | nil => exact absurd rfl hne
        | cons c rest => exact ⟨c, rest, rfl⟩
      have hc : c = '/' := by simpa using h2
      subst hc
      cases rest with
      | nil => simp at h1
      | cons d ds => simp [List.dropLast]

/-- Witness for C8: an empty pattern and the pattern `x/` are skipped with
the surrounding entries kept; `/r/` is stored as `/r`. -/
theorem loadStringMap_spec_witness :
    loadStringMap [("a".toList, "b".toList), ([], "v".toList), ("c".toList, "d".toList)]
      = loadStringMap [("a".toList, "b".toList), ("c".toList, "d".toList)] ∧
    loadStringMap [("x/".toList, "v".toList), ("c".toList, "d".toList)]
      = loadStringMap [("c".toList, "d".toList)] ∧
    (loadStringMap [("/r/".toList, "v".toList)] = [("/r/".toList.dropLast, "v".toList)] ∧
      "/r/".toList.dropLast.head? = some '/') := by
  refine ⟨?_, ?_, ?_⟩
  · exact (loadStringMap_spec [("a".toList, "b".toList)] [("c".toList, "d".toList)]
      "x".toList "v".toList).1
  · exact (loadStringMap_spec [] [("c".toList, "d".toList)] "x/".toList "v".toList).2.1
      (by decide) (by decide) (by decide)
  · have h := (loadStringMap_spec [] [] "/r/".toList "v".toList).2.2
      (by decide) (by decide) (by decide)
    exact ⟨h.1, h.2⟩

/-- Claim C9: the one-character pattern `/` is not rejected at load time:
it is stored as the empty string; in `mapIdentifier` the stored empty
pattern is never dispatched as a regex, matches as a literal only when the
queried base name is empty (the scoped name always contains `/`), and then
returns its replacement text. -/
theorem slash_pattern_spec :
    ∀ (r : Str) (rest : List (Str × Str)) (rxReplace : Str → Str → Str → Str)
      (rules : List (Str × Str)) (baseName scope : Str),
      loadStringMap ((['/'], r) :: rest) = ([], r) :: loadStringMap rest ∧
      mapIdentifier rxReplace (([], r) :: rules) [] scope = r ∧
      (¬baseName = [] →
        mapIdentifier rxReplace (([], r) :: rules) baseName scope
          = mapIdentifier rxReplace rules baseName scope) := by
  intro r rest rxR rules b sc
  refine ⟨rfl, rfl, ?_⟩
  intro h
  show identScan rxR b (sc ++ '/' :: b) (([], r) :: rules) = identScan rxR b (sc ++ '/' :: b) rules
  simp only [identScan]
  rw [if_neg (by simp), if_neg ?_]
  rintro (hc | hc)
  · exact h hc.symm
  · have := hc.symm
    simp [List.append_eq_nil] at this

/-- Witness for C9: a stored empty pattern is skipped for the non-empty
base name `x`, leaving the rest of the table to decide. -/
theorem slash_pattern_spec_witness :
    mapIdentifier (fun _ ps r => ps ++ r) [([], "R".toList)] "x".toList "s".toList
      = mapIdentifier (fun _ ps r => ps ++ r) [] "x".toList "s".toList :=
  (slash_pattern_spec "R".toList [] (fun _ ps r => ps ++ r) [] "x".toList "s".toList).2.2
    (by decide)

/-- Claim C10: for a map-form target-type node, the constructed base name
is the value of the reserved key `type` when that key maps to a scalar,
and the empty string when the key is absent. -/
theorem parseTargetType_typeKey :
    ∀ (es : YamlMap) (tu : TypeUsage),
      parseTargetType (.map es) = Except.ok tu →
      (lookupStr typeKey es = none → tu.baseName = []) ∧
      (∀ s, lookupStr typeKey es = some (.scalar s) → tu.baseName = s) := by
  intro es tu h
  unfold parseTargetType at h
  obtain ⟨h1, _⟩ := addTypeAttributes_props es _ tu h
  constructor
  · intro hnone
    rw [h1]
    simp [yamlAsString, hnone]
  · intro s hs
    rw [h1]
    simp [yamlAsString, hs]

/-- Witness for C10: a map whose `type` key is the scalar `int` yields the
base name `int`. -/
theorem parseTargetType_typeKey_witness :
    (TypeUsage.mk "int".toList [] []).baseName = "int".toList :=
  (parseTargetType_typeKey [(typeKey, .scalar "int".toList)] ⟨"int".toList, [], []⟩ rfl).2
    "int".toList rfl

end Gtad
